import Mathlib

set_option maxHeartbeats 2000000
set_option maxRecDepth 8192

/-!
Verification development for the DigitDestroyer grid-matching game engine
(`assets/js/app.js`).  The game state of the `DigitDestroyer` class is embedded
as a Lean structure; each gameplay method becomes a pure state-transition
function translated line by line from the source.  The grid is a total
function `ℕ → ℕ → Option ℕ`: `some d` is a digit cell, `none` is the empty
(`null`) marker; only indices below `gridSize` are meaningful, matching the
JavaScript 2-D array (out-of-bounds reads yield `undefined`, which compares
unequal to every digit and to `null`).  Scheduled callbacks (`setTimeout`)
are modelled by pending-callback counters in the state plus explicit
"callback fires" transitions; the JavaScript runtime is single-threaded, so
a play-through is a sequence of such transitions.
-/

/-- A grid: `this.grid[r][c]`, with `none` for the `null` empty marker. -/
abbrev GridF := ℕ → ℕ → Option ℕ

/-- Pointwise update `grid[r][c] = v` of a functional grid. -/
def updateG (g : GridF) (r c : ℕ) (v : Option ℕ) : GridF :=
  fun r' c' => if r' = r ∧ c' = c then v else g r' c'

/-- `initializeGrid` (app.js 172-196): every cell receives
`Math.floor(Math.random() * 10)`, a uniformly random digit in `[0,9]`.
The random stream is a parameter `rnd`; the DOM cell creation is external. -/
def initializeGrid (rnd : ℕ → ℕ → Fin 10) : GridF :=
  fun r c => some (rnd r c).val

/-- The 4-neighbour relation on coordinates coming from the direction list
`[[-1,0],[1,0],[0,-1],[0,1]]` of `findConnectedCells` (app.js 767-772). -/
def nbr (p q : ℕ × ℕ) : Prop :=
  (p.1 = q.1 ∧ (q.2 = p.2 + 1 ∨ p.2 = q.2 + 1)) ∨
  (p.2 = q.2 ∧ (q.1 = p.1 + 1 ∨ p.1 = q.1 + 1))

instance (p q : ℕ × ℕ) : Decidable (nbr p q) := by
  unfold nbr; infer_instance

/-- One same-digit 4-directional step inside the `n × n` grid: both endpoints
are in bounds, both hold `digit`, and they are orthogonal neighbours. -/
def adjc (g : GridF) (n : ℕ) (digit : Option ℕ) (p q : ℕ × ℕ) : Prop :=
  p.1 < n ∧ p.2 < n ∧ q.1 < n ∧ q.2 < n ∧
  g p.1 p.2 = digit ∧ g q.1 q.2 = digit ∧ nbr p q

instance (g : GridF) (n : ℕ) (digit : Option ℕ) (p q : ℕ × ℕ) :
    Decidable (adjc g n digit p q) := by
  unfold adjc; infer_instance

/-- The neighbour coordinate `(r + dr, c + dc)` of `findConnectedCells`
(app.js 773-775), computed in `ℤ` exactly as the JavaScript does and
truncated back to `ℕ` (the guard `GuardP` ensures the value is nonnegative
whenever it is used). -/
def nbrPt (r c : ℕ) (d : ℤ × ℤ) : ℕ × ℕ :=
  (((r : ℤ) + d.1).toNat, ((c : ℤ) + d.2).toNat)

/-- The loop guard of `findConnectedCells` (app.js 776-782):
`nr >= 0 && nr < gridSize && nc >= 0 && nc < gridSize && grid[nr][nc] === digit`. -/
def GuardP (g : GridF) (n : ℕ) (digit : Option ℕ) (r c : ℕ) (d : ℤ × ℤ) : Prop :=
  0 ≤ (r : ℤ) + d.1 ∧ (r : ℤ) + d.1 < (n : ℤ) ∧
  0 ≤ (c : ℤ) + d.2 ∧ (c : ℤ) + d.2 < (n : ℤ) ∧
  g (nbrPt r c d).1 (nbrPt r c d).2 = digit

instance (g : GridF) (n : ℕ) (digit : Option ℕ) (r c : ℕ) (d : ℤ × ℤ) :
    Decidable (GuardP g n digit r c d) := by
  unfold GuardP; infer_instance

/-- One iteration of the direction loop of `findConnectedCells`
(app.js 773-785): if the guard passes, the recursive call (the parameter `f`,
instantiated with the recursion at one less fuel) runs on the shared visited
set and its cells are appended (`out.push(...)`); otherwise nothing happens.
The accumulator pairs the output list with the shared mutable visited set. -/
def visitStep (g : GridF) (n : ℕ) (digit : Option ℕ)
    (f : ℕ → ℕ → Finset (ℕ × ℕ) → List (ℕ × ℕ) × Finset (ℕ × ℕ))
    (r c : ℕ) (acc : List (ℕ × ℕ) × Finset (ℕ × ℕ)) (d : ℤ × ℤ) :
    List (ℕ × ℕ) × Finset (ℕ × ℕ) :=
  if GuardP g n digit r c d then
    let p := f (nbrPt r c d).1 (nbrPt r c d).2 acc.2
    (acc.1 ++ p.1, p.2)
  else acc

/-- The body of `findConnectedCells` after the two early returns
(app.js 765-786): add the cell to `visited`, start `out = [{row, col}]`,
then run the four directions `(-1,0), (1,0), (0,-1), (0,1)` in order
(the loop is unrolled). -/
def fccCore (g : GridF) (n : ℕ) (digit : Option ℕ)
    (f : ℕ → ℕ → Finset (ℕ × ℕ) → List (ℕ × ℕ) × Finset (ℕ × ℕ))
    (r c : ℕ) (visited : Finset (ℕ × ℕ)) : List (ℕ × ℕ) × Finset (ℕ × ℕ) :=
  visitStep g n digit f r c
    (visitStep g n digit f r c
      (visitStep g n digit f r c
        (visitStep g n digit f r c ([(r, c)], insert (r, c) visited) (-1, 0))
        (1, 0))
      (0, -1))
    (0, 1)

/-- `findConnectedCells(r, c, digit, visited)` (app.js 761-787) with an
explicit fuel parameter to make the shared-visited-set recursion structural.
The two early returns are `if (visited.has(key)) return []` and
`if (this.grid[r][c] !== digit) return []`; for an out-of-bounds `(r, c)`
the JavaScript read `grid[r][c]` is `undefined`, which is `!== digit` for
every digit and for `null`, so the faithful translation of the second test
is the single guard `r < n ∧ c < n ∧ g r c = digit`.  `fcc_fuel_stable`
below shows the fuel never runs out once it exceeds the number of
in-bounds unvisited cells, so `n * n + 1` computes the true flood fill. -/
def fccAux (g : GridF) (n : ℕ) (digit : Option ℕ) :
    ℕ → ℕ → ℕ → Finset (ℕ × ℕ) → List (ℕ × ℕ) × Finset (ℕ × ℕ)
  | 0, _, _, visited => ([], visited)
  | fuel + 1, r, c, visited =>
    if (r, c) ∈ visited then ([], visited)
    else if r < n ∧ c < n ∧ g r c = digit then
      fccCore g n digit (fccAux g n digit fuel) r c visited
    else ([], visited)

/-- `findConnectedCells(r, c, digit)` with the default `visited = new Set()`. -/
def findConnectedCells (g : GridF) (n : ℕ) (r c : ℕ) (digit : Option ℕ) :
    List (ℕ × ℕ) :=
  (fccAux g n digit (n * n + 1) r c ∅).1

/-- The in-bounds coordinates of an `n × n` grid. -/
def inB (n : ℕ) : Finset (ℕ × ℕ) := (Finset.range n) ×ˢ (Finset.range n)

/-- Number of in-bounds cells not yet visited: the quantity that shrinks at
every recursive call of `findConnectedCells`. -/
def remFC (n : ℕ) (v : Finset (ℕ × ℕ)) : ℕ :=
  ((inB n).filter (fun p => p ∉ v)).card

/-- `destroyCells` (app.js 789-801): each listed cell is set to `null`
(the grid write happens 250 ms later inside a `setTimeout`, but it is the
only grid effect of the call). -/
def destroyCells (cells : List (ℕ × ℕ)) (g : GridF) : GridF :=
  fun r c => if (r, c) ∈ cells then none else g r c

/-- The inner per-column loop of `dropCells` (app.js 849-858): rows are
scanned from the bottom (`gridSize - 1`) up, `write` is the write pointer;
a non-empty cell found at `row ≠ write` is moved down to `write` and its
old position is cleared, and `write` moves up by one for every non-empty
cell.  The row list argument is `[n-1, n-2, ..., 0]`. -/
def dropColAux (col : ℕ) : List ℕ → ℕ → GridF → GridF
  | [], _, g => g
  | row :: rest, write, g =>
    if (g row col).isSome then
      if row ≠ write then
        dropColAux col rest (write - 1)
          (updateG (updateG g write col (g row col)) row col none)
      else
        dropColAux col rest (write - 1) g
    else
      dropColAux col rest write g

/-- `dropCells` (app.js 847-860): the per-column compaction run over every
column `0 ≤ col < gridSize`. -/
def dropCells (n : ℕ) (g : GridF) : GridF :=
  (List.range n).foldl
    (fun g col => dropColAux col (List.range n).reverse (n - 1) g) g

/-- `fillEmptySpaces` (app.js 862-875): every in-bounds `null` cell receives
a fresh random digit `Math.floor(Math.random() * 10)` (the 800 ms delay and
the display refresh are external). -/
def fillEmptySpaces (n : ℕ) (rnd : ℕ → ℕ → Fin 10) (g : GridF) : GridF :=
  fun r c => if r < n ∧ c < n ∧ g r c = none then some (rnd r c).val else g r c

/-- Column `col` of the grid read top to bottom, rows `0` to `n - 1`. -/
def colOf (n : ℕ) (g : GridF) (col : ℕ) : List (Option ℕ) :=
  (List.range n).map (fun r => g r col)

/-- Signals the engine emits that the claims talk about: the per-second
low-time tick sound (`sfxTick`, app.js 340-343) and the game-over score
report (`postScore`, app.js 906). -/
inductive GEvent
  | lowTime (t : ℤ)
  | gameOver (final : ℤ)
deriving DecidableEq, Repr

/-- The mutable session state of the `DigitDestroyer` class (app.js 128-152)
restricted to the engine fields.  `timerOn` models whether the countdown
interval of `_startTimer` is live; the `pending*` counters model `setTimeout`
callbacks that have been scheduled but have not fired yet (`pendingDecays`:
the 3 s combo decay of `calculateScore`; `pendingBoostExpiry`: the 3 s
`combo -= 3` of the ⭐ power-up; `pendingSettles`: the 500 ms
`dropCells(); fillEmptySpaces()` of an accepted match or explosion).
Nothing in `app.js` ever calls `clearTimeout`, so no transition other than
the callback firing itself ever decrements these counters.  `events` logs
emitted signals. -/
structure GameState where
  grid : GridF
  gridSize : ℕ
  score : ℤ
  timeLeft : ℤ
  combo : ℤ
  level : ℤ
  isPlaying : Bool
  isPaused : Bool
  lastTickPlayed : Option ℤ
  timerOn : Bool
  pendingDecays : ℕ
  pendingBoostExpiry : ℕ
  pendingSettles : ℕ
  events : List GEvent

/-- The `DigitDestroyer` constructor state (app.js 129-152):
fresh grid, score 0, 60 seconds, combo 0, level 1, not playing. -/
def mkGame (rnd : ℕ → ℕ → Fin 10) : GameState :=
  { grid := initializeGrid rnd
    gridSize := 8
    score := 0
    timeLeft := 60
    combo := 0
    level := 1
    isPlaying := false
    isPaused := false
    lastTickPlayed := none
    timerOn := false
    pendingDecays := 0
    pendingBoostExpiry := 0
    pendingSettles := 0
    events := [] }

/-- `startGame` (app.js 246-271): enter play, reset score/combo/level/time,
restart the countdown (`_stopTimer(); _startTimer()` also clears
`_lastTickPlayed`).  Button state, sounds and power-up spawning are external. -/
def startGame (s : GameState) : GameState :=
  { s with isPlaying := true, isPaused := false, timeLeft := 60, score := 0,
           combo := 0, level := 1, timerOn := true, lastTickPlayed := none }

/-- `resetGame` (app.js 288-318): stop play, zero the counters, stop the
countdown (`_stopTimer` only clears the interval; `_lastTickPlayed` is
untouched) and rebuild the grid via `initializeGrid`.  The `pending*`
counters are untouched: `resetGame` contains no `clearTimeout`. -/
def resetGame (rnd : ℕ → ℕ → Fin 10) (s : GameState) : GameState :=
  { s with isPlaying := false, isPaused := false, score := 0, timeLeft := 60,
           combo := 0, level := 1, timerOn := false,
           grid := initializeGrid rnd }

/-- `pauseGame` (app.js 273-286): toggle pause; pausing stops the countdown,
resuming restarts it (and `_startTimer` clears `_lastTickPlayed`). -/
def pauseGame (s : GameState) : GameState :=
  if s.isPaused then
    { s with isPaused := false, timerOn := true, lastTickPlayed := none }
  else
    { s with isPaused := true, timerOn := false }

/-- `endGame` (app.js 900-922): leave play, stop the countdown and report the
final score (`postScore(this.score)`). -/
def endGame (s : GameState) : GameState :=
  { s with isPlaying := false, timerOn := false,
           events := s.events ++ [GEvent.gameOver s.score] }

/-- First half of the countdown callback body (app.js 332-344):
`this.timeLeft--`, then, when the new value is in `[0,10]` and differs from
`_lastTickPlayed`, play the low-time tick (`sfxTick`) and remember the value
(the rewarded-video offer and the display update are external). -/
def tickWarn (s : GameState) : GameState :=
  if 0 ≤ s.timeLeft - 1 ∧ s.timeLeft - 1 ≤ 10 then
    if s.lastTickPlayed ≠ some (s.timeLeft - 1) then
      { s with timeLeft := s.timeLeft - 1,
               lastTickPlayed := some (s.timeLeft - 1),
               events := s.events ++ [GEvent.lowTime (s.timeLeft - 1)] }
    else { s with timeLeft := s.timeLeft - 1 }
  else { s with timeLeft := s.timeLeft - 1 }

/-- Second half of the countdown callback body (app.js 346):
`if (this.timeLeft <= 0) this.endGame()`. -/
def tickRun (s : GameState) : GameState :=
  if s.timeLeft - 1 ≤ 0 then endGame (tickWarn s) else tickWarn s

/-- One firing of the countdown interval callback of `_startTimer`
(app.js 330-348).  The interval only exists while `timerOn`; the callback
body runs unless `isPaused`. -/
def tick (s : GameState) : GameState :=
  if s.timerOn = false then s
  else if s.isPaused = true then s
  else tickRun s

/-- `giveReward` (app.js 979-988): the rewarded-video reward adds 20 seconds,
unpauses and restarts the countdown (`_startTimer` clears `_lastTickPlayed`). -/
def giveReward (s : GameState) : GameState :=
  { s with timeLeft := s.timeLeft + 20, isPaused := false, timerOn := true,
           lastTickPlayed := none }

/-- The points formula of `calculateScore` (app.js 804-808):
`base + bonus + comboBonus + levelBonus` with
`bonus = Math.max(0, (n - 2) * 15)`. -/
def scorePoints (n : ℕ) (combo level : ℤ) : ℤ :=
  (n : ℤ) * 10 + max 0 (((n : ℤ) - 2) * 15) + combo * 5 + level * 2

/-- `calculateScore(n)` (app.js 803-832): add the points, increment the
combo, and schedule the 3-second combo-decay `setTimeout` (app.js 823-829),
modelled by incrementing `pendingDecays`. -/
def calculateScore (n : ℕ) (s : GameState) : GameState :=
  { s with score := s.score + scorePoints n s.combo s.level,
           combo := s.combo + 1,
           pendingDecays := s.pendingDecays + 1 }

/-- One firing of the combo-decay callback scheduled by `calculateScore`
(app.js 823-829): `if (combo > 0) combo = Math.max(0, combo - 1)`.
It can only fire while scheduled (`pendingDecays ≠ 0`). -/
def comboDecayFire (s : GameState) : GameState :=
  if s.pendingDecays = 0 then s
  else
    let s' := { s with pendingDecays := s.pendingDecays - 1 }
    if 0 < s'.combo then { s' with combo := max 0 (s'.combo - 1) } else s'

/-- The level-up check of `handleCellClick` (app.js 382-387):
`if (score > level * 600 && level <= 15) level++`. -/
def levelCheckClick (s : GameState) : GameState :=
  if s.score > s.level * 600 ∧ s.level ≤ 15 then { s with level := s.level + 1 }
  else s

/-- The level-up check used by the power-up effects (app.js 645-650, 679-684,
704-709): `if (score > level * 600) level++` — note: no `level <= 15` cap. -/
def levelCheckNoCap (s : GameState) : GameState :=
  if s.score > s.level * 600 then { s with level := s.level + 1 } else s

/-- `handleCellClick` (app.js 357-392): ignore the click unless playing and
unpaused; flood-fill from the clicked cell with `digit = grid[row][col]`;
if the group has at least 2 cells, destroy them, score them, schedule the
500 ms settle (`dropCells(); fillEmptySpaces()`, modelled by
`pendingSettles + 1`) and run the capped level-up check; otherwise nothing
changes (the invalid-selection feedback is external). -/
def handleCellClick (r c : ℕ) (s : GameState) : GameState :=
  if s.isPlaying = false ∨ s.isPaused = true then s
  else
    let digit := s.grid r c
    let cells := findConnectedCells s.grid s.gridSize r c digit
    if 2 ≤ cells.length then
      let s1 := { s with grid := destroyCells cells s.grid }
      let s2 := calculateScore cells.length s1
      let s3 := { s2 with pendingSettles := s2.pendingSettles + 1 }
      levelCheckClick s3
    else s

/-- The parameter of `activatePowerUp` (app.js 630-666).  The randomness of
the 💣 explosion (up to 8 distinct random cells) and of the 🔥 target digit
is made explicit as data. -/
inductive PUType
  | timeBoost
  | explosion (cells : List (ℕ × ℕ))
  | bonusPoints
  | comboBoost
  | clearDigit (target : ℕ)

/-- `explodeRandomCells` (app.js 668-690): destroy the chosen cells, add
`cells.length * 20` points, run the uncapped level-up check, and schedule
the 500 ms settle. -/
def explodeRandomCells (cells : List (ℕ × ℕ)) (s : GameState) : GameState :=
  levelCheckNoCap
    { s with grid := destroyCells cells s.grid,
             score := s.score + cells.length * 20,
             pendingSettles := s.pendingSettles + 1 }

/-- `clearRandomDigit` (app.js 692-716): collect every cell holding the
target digit (row-major); if any exist, destroy them, add
`cells.length * 15` points, run the uncapped level-up check, and schedule
the 500 ms settle. -/
def clearRandomDigit (target : ℕ) (s : GameState) : GameState :=
  let cells :=
    (List.range s.gridSize).flatMap (fun r =>
      (List.range s.gridSize).filterMap (fun c =>
        if s.grid r c = some target then some (r, c) else none))
  if cells.length ≠ 0 then
    levelCheckNoCap
      { s with grid := destroyCells cells s.grid,
               score := s.score + cells.length * 15,
               pendingSettles := s.pendingSettles + 1 }
  else s

/-- `activatePowerUp(type)` (app.js 630-666).  ⚡ adds 10 seconds; 💣 and 🔥
destroy cells and score them; 🎯 adds 500 points with the uncapped level-up
check; ⭐ adds 3 to the combo and schedules the 3-second `combo -= 3`
`setTimeout` (app.js 655-658), modelled by `pendingBoostExpiry + 1`. -/
def activatePowerUp : PUType → GameState → GameState
  | .timeBoost, s => { s with timeLeft := s.timeLeft + 10 }
  | .explosion cells, s => explodeRandomCells cells s
  | .bonusPoints, s =>
      levelCheckNoCap { s with score := s.score + 500 }
  | .comboBoost, s =>
      { s with combo := s.combo + 3,
               pendingBoostExpiry := s.pendingBoostExpiry + 1 }
  | .clearDigit t, s => clearRandomDigit t s

/-- One firing of the ⭐ combo-boost expiry callback (app.js 655-658):
`this.combo -= 3`, with no clamping.  It can only fire while scheduled. -/
def comboBoostExpireFire (s : GameState) : GameState :=
  if s.pendingBoostExpiry = 0 then s
  else { s with combo := s.combo - 3,
                pendingBoostExpiry := s.pendingBoostExpiry - 1 }

/-- One firing of the settle callback scheduled by an accepted match or an
explosion (app.js 377-380, 686-689, 711-714): `dropCells()` then
`fillEmptySpaces()` (the inner 800 ms delay of the refill is folded in). -/
def settleFire (rnd : ℕ → ℕ → Fin 10) (s : GameState) : GameState :=
  if s.pendingSettles = 0 then s
  else
    { s with pendingSettles := s.pendingSettles - 1,
             grid := fillEmptySpaces s.gridSize rnd (dropCells s.gridSize s.grid) }

/-- The events that can reach the engine in a play-through: user actions,
the countdown interval, and the firing of previously scheduled callbacks. -/
inductive GOp
  | start
  | pause
  | reset (rnd : ℕ → ℕ → Fin 10)
  | tickOp
  | click (r c : ℕ)
  | powerUp (t : PUType)
  | decayFire
  | boostExpireFire
  | settle (rnd : ℕ → ℕ → Fin 10)
  | reward

/-- Apply one event to the session state. -/
def applyOp (s : GameState) : GOp → GameState
  | .start => startGame s
  | .pause => pauseGame s
  | .reset rnd => resetGame rnd s
  | .tickOp => tick s
  | .click r c => handleCellClick r c s
  | .powerUp t => activatePowerUp t s
  | .decayFire => comboDecayFire s
  | .boostExpireFire => comboBoostExpireFire s
  | .settle rnd => settleFire rnd s
  | .reward => giveReward s

/-- Run a sequence of events (the single-threaded event loop). -/
def runGame (s : GameState) (ops : List GOp) : GameState :=
  ops.foldl applyOp s

/-- A fixed random stream: every generated digit is 0. -/
def rndZero : ℕ → ℕ → Fin 10 := fun _ _ => 0

/-- A random stream whose grid has exactly one matchable pair: cells `(0,0)`
and `(0,1)` hold 0, everything else is a 1/2 checkerboard (no two equal
digits are ever orthogonally adjacent outside the pair). -/
def rndPair : ℕ → ℕ → Fin 10 := fun r c =>
  if r = 0 ∧ c < 2 then 0 else if (r + c) % 2 = 0 then 1 else 2

/-- A started session in the middle of a settle cycle: the pair of cells
`(0,0)` and `(0,1)` has just been destroyed (both `null`), the refill has
not run yet, every other cell holds the digit 1. -/
def emptyPairState : GameState :=
  { startGame (mkGame rndPair) with
    grid := fun r c => if r = 0 ∧ c < 2 then none else some 1 }

/-- Specification bundle for one level of the `findConnectedCells` recursion
`f r c v = (out, v')`: the visited set only grows, and grows by exactly the
returned cells; the returned cells are duplicate-free, fresh, in bounds,
hold `digit`, and are reachable from the start cell by same-digit steps. -/
def FSpec (g : GridF) (n : ℕ) (digit : Option ℕ)
    (f : ℕ → ℕ → Finset (ℕ × ℕ) → List (ℕ × ℕ) × Finset (ℕ × ℕ)) : Prop :=
  ∀ r c v,
    v ⊆ (f r c v).2 ∧
    (f r c v).2 = v ∪ (f r c v).1.toFinset ∧
    (f r c v).1.Nodup ∧
    (∀ p ∈ (f r c v).1, p ∉ v) ∧
    (∀ p ∈ (f r c v).1, p.1 < n ∧ p.2 < n ∧ g p.1 p.2 = digit) ∧
    (∀ p ∈ (f r c v).1, Relation.ReflTransGen (adjc g n digit) (r, c) p)

/-- Invariant carried through the four direction steps of `fccCore` at a
node `(r, c)` entered with visited set `v`. -/
def FccOut (g : GridF) (n : ℕ) (digit : Option ℕ) (r c : ℕ)
    (v : Finset (ℕ × ℕ)) (acc : List (ℕ × ℕ) × Finset (ℕ × ℕ)) : Prop :=
  insert (r, c) v ⊆ acc.2 ∧
  acc.2 = v ∪ acc.1.toFinset ∧
  acc.1.Nodup ∧
  (∀ p ∈ acc.1, p ∉ v) ∧
  (∀ p ∈ acc.1, p.1 < n ∧ p.2 < n ∧ g p.1 p.2 = digit) ∧
  (∀ p ∈ acc.1, Relation.ReflTransGen (adjc g n digit) (r, c) p)

/-- The non-empty entries of column `col`, restricted to rows `0..m-1`, in
top-to-bottom order. -/
def nnCol (g : GridF) (col m : ℕ) : List (Option ℕ) :=
  ((List.range m).map (fun r => g r col)).filter (fun x => x.isSome)

/-- What compaction is supposed to do to one column read top to bottom:
empties on top, then the non-empty values in their original order. -/
def compactedCol (n : ℕ) (l : List (Option ℕ)) : List (Option ℕ) :=
  List.replicate (n - (l.filter (fun x => x.isSome)).length) none ++
    l.filter (fun x => x.isSome)

/-- Closure property of calls `f r c v` that start with enough fuel left
(at least `remFC n v + 1`): every same-digit neighbour of a returned cell
ends up in the returned visited set. -/
def FClosedUnder (g : GridF) (n : ℕ) (digit : Option ℕ)
    (f : ℕ → ℕ → Finset (ℕ × ℕ) → List (ℕ × ℕ) × Finset (ℕ × ℕ))
    (bound : ℕ) : Prop :=
  ∀ r c v, remFC n v < bound →
    ∀ p ∈ (f r c v).1, ∀ q, adjc g n digit p q → q ∈ (f r c v).2

/-! ## Basic scoring and level lemmas -/

/-- The capped level-up check of an accepted match either keeps the level or,
only when the level was at most 15, increments it once. -/
lemma levelCheckClick_level (s : GameState) :
    (levelCheckClick s).level = s.level ∨
      ((levelCheckClick s).level = s.level + 1 ∧ s.level ≤ 15) := by
  unfold levelCheckClick
  split_ifs with h
  · exact Or.inr ⟨rfl, h.2⟩
  · exact Or.inl rfl

/-- The uncapped power-up level check keeps the level or increments it once. -/
lemma levelCheckNoCap_level (s : GameState) :
    (levelCheckNoCap s).level = s.level ∨ (levelCheckNoCap s).level = s.level + 1 := by
  unfold levelCheckNoCap
  split_ifs
  · exact Or.inr rfl
  · exact Or.inl rfl

/-- `handleCellClick` changes the level only through its capped check. -/
lemma handleCellClick_level (r c : ℕ) (s : GameState) :
    (handleCellClick r c s).level = s.level ∨
      ((handleCellClick r c s).level = s.level + 1 ∧ s.level ≤ 15) := by
  unfold handleCellClick
  split_ifs with h1
  · exact Or.inl rfl
  · dsimp only
    split_ifs with h2
    · exact levelCheckClick_level _
    · exact Or.inl rfl

/-! ## Claim C1: the scoring formula -/

/-- C1: for every match of size `n ≥ 2`, with `c` the combo and `l` the level
at the moment of the call, `calculateScore(n)` adds exactly
`n*10 + max(0, (n-2)*15) + c*5 + l*2` to the score (the combo bonus uses the
pre-increment combo) and then increments the combo by exactly 1; in
particular size 2 at combo 0, level 1 gives 22 points, and size 4 at
combo 2, level 3 gives 86 points. -/
theorem claim1_calculateScore (s : GameState) (n : ℕ) (h : 2 ≤ n) :
    (calculateScore n s).score =
      s.score + ((n : ℤ) * 10 + max 0 (((n : ℤ) - 2) * 15) +
        s.combo * 5 + s.level * 2) ∧
    (calculateScore n s).combo = s.combo + 1 ∧
    scorePoints 2 0 1 = 22 ∧ scorePoints 4 2 3 = 86 :=
  ⟨rfl, rfl, by decide, by decide⟩

/-- C1 witness: the theorem applied at the fresh game state with `n = 4`. -/
theorem claim1_witness :
    2 ≤ 4 ∧
    ((calculateScore 4 (mkGame rndZero)).score =
      (mkGame rndZero).score + ((4 : ℤ) * 10 + max 0 (((4 : ℤ) - 2) * 15) +
        (mkGame rndZero).combo * 5 + (mkGame rndZero).level * 2) ∧
    (calculateScore 4 (mkGame rndZero)).combo = (mkGame rndZero).combo + 1 ∧
    scorePoints 2 0 1 = 22 ∧ scorePoints 4 2 3 = 86) :=
  ⟨by decide, claim1_calculateScore (mkGame rndZero) 4 (by decide)⟩

/-! ## Claim C2: level growth -/

/-- C2 counterexample: the claim says every score-increasing operation
followed by its level-up check leaves `level ≤ 15`.  After a start and 18
bonus-points power-up activations (a reachable run) the level is 15 and the
score is 9000; the 19th bonus-points activation runs its level-up check
(`score > level * 600`, with no level cap on the power-up path, app.js
645-650) and raises the level to 16. -/
theorem claim2_cex :
    (runGame (mkGame rndZero)
      (GOp.start :: List.replicate 18 (GOp.powerUp PUType.bonusPoints))).level = 15 ∧
    (activatePowerUp PUType.bonusPoints
      (runGame (mkGame rndZero)
        (GOp.start :: List.replicate 18 (GOp.powerUp PUType.bonusPoints)))).level = 16 := by
  constructor
  · decide
  · decide

/-- C2 amended: a single score change increments the level at most once, and
the accepted-match check (which requires `level ≤ 15` to fire, app.js 382)
leaves the level at most `max level 16`; the power-up score checks carry no
level cap, so the level can exceed 15 (it reaches 16 in `claim2_cex`). -/
theorem claim2_amended (s : GameState) (r c target : ℕ) (cells : List (ℕ × ℕ)) :
    ((handleCellClick r c s).level = s.level ∨
      (handleCellClick r c s).level = s.level + 1) ∧
    (handleCellClick r c s).level ≤ max s.level 16 ∧
    ((activatePowerUp PUType.bonusPoints s).level = s.level ∨
      (activatePowerUp PUType.bonusPoints s).level = s.level + 1) ∧
    ((explodeRandomCells cells s).level = s.level ∨
      (explodeRandomCells cells s).level = s.level + 1) ∧
    ((clearRandomDigit target s).level = s.level ∨
      (clearRandomDigit target s).level = s.level + 1) := by
  refine ⟨?_, ?_, ?_, ?_, ?_⟩
  · rcases handleCellClick_level r c s with h | h
    · exact Or.inl h
    · exact Or.inr h.1
  · rcases handleCellClick_level r c s with h | h
    · rw [h]; exact le_max_left _ _
    · rw [h.1]
      have := h.2
      refine le_trans ?_ (le_max_right _ _)
      omega
  · exact levelCheckNoCap_level _
  · exact levelCheckNoCap_level _
  · unfold clearRandomDigit
    dsimp only
    split_ifs
    · exact levelCheckNoCap_level _
    · exact Or.inl rfl

/-! ## Claim C3: combo nonnegativity -/

/-- C3 counterexample: activate the ⭐ combo boost (combo 3, expiry callback
scheduled), then restart the game via the reset/start flow (combo 0; the
pending `combo -= 3` timeout is not cancelled, `resetGame` has no
`clearTimeout`), and let the expiry callback fire: the combo becomes `-3`,
which is negative — the claim that every combo-modifying operation leaves
`combo ≥ 0` fails on the boost expiry. -/
theorem claim3_cex :
    (runGame (mkGame rndZero)
      [GOp.start, GOp.powerUp PUType.comboBoost, GOp.reset rndZero,
       GOp.start, GOp.boostExpireFire]).combo = -3 ∧
    (runGame (mkGame rndZero)
      [GOp.start, GOp.powerUp PUType.comboBoost, GOp.reset rndZero,
       GOp.start, GOp.boostExpireFire]).combo < 0 := by
  constructor
  · decide
  · decide

/-- C3 amended: the scoring increment, the 3-second decay callback (which
decrements by 1 clamped at 0, app.js 823-829) and the ⭐ grant of +3 all
preserve `combo ≥ 0`, but the ⭐ expiry callback subtracts 3 with no
clamping (app.js 655-658), so it leaves the combo nonnegative only when the
combo was at least 3 — a reset or restart inside the 3-second boost window
drives the combo to `-3` (`claim3_cex`). -/
theorem claim3_amended (s : GameState) (n : ℕ) (h : 0 ≤ s.combo) :
    0 ≤ (calculateScore n s).combo ∧
    0 ≤ (comboDecayFire s).combo ∧
    0 ≤ (activatePowerUp PUType.comboBoost s).combo ∧
    (0 < s.combo → s.pendingDecays ≠ 0 →
      (comboDecayFire s).combo = max 0 (s.combo - 1)) ∧
    (s.pendingBoostExpiry ≠ 0 →
      (comboBoostExpireFire s).combo = s.combo - 3) := by
  refine ⟨?_, ?_, ?_, ?_, ?_⟩
  · show 0 ≤ s.combo + 1
    omega
  · unfold comboDecayFire
    dsimp only
    split_ifs
    · exact h
    · exact le_max_left _ _
    · exact h
  · show 0 ≤ s.combo + 3
    omega
  · intro hc hp
    unfold comboDecayFire
    dsimp only
    rw [if_neg hp, if_pos hc]
  · intro hp
    unfold comboBoostExpireFire
    rw [if_neg hp]

/-- C3 witness: the amended theorem applied at the state reached after one
scored match on the paired grid (combo 1, one pending decay). -/
theorem claim3_witness :
    0 ≤ (handleCellClick 0 0 (startGame (mkGame rndPair))).combo ∧
    0 ≤ (calculateScore 3 (handleCellClick 0 0 (startGame (mkGame rndPair)))).combo :=
  ⟨by decide,
   (claim3_amended (handleCellClick 0 0 (startGame (mkGame rndPair))) 3 (by decide)).1⟩

/-! ## Claim C9: what reset does and does not cancel -/

/-- C9 counterexample: activate the ⭐ boost and reset.  The claim says reset
cancels all pending scheduled work; but after the reset the boost-expiry
callback is still pending (`resetGame` never calls `clearTimeout`), and when
it fires it mutates the freshly reset session, driving the combo from 0 to
`-3`. -/
theorem claim9_cex :
    (runGame (mkGame rndZero)
      [GOp.start, GOp.powerUp PUType.comboBoost, GOp.reset rndZero]).pendingBoostExpiry = 1 ∧
    (runGame (mkGame rndZero)
      [GOp.start, GOp.powerUp PUType.comboBoost, GOp.reset rndZero]).combo = 0 ∧
    (comboBoostExpireFire (runGame (mkGame rndZero)
      [GOp.start, GOp.powerUp PUType.comboBoost, GOp.reset rndZero])).combo = -3 := by
  refine ⟨by decide, by decide, by decide⟩

/-- C9 amended: `resetGame`, invoked from any state, sets score 0, combo 0,
level 1, time 60, leaves the session neither playing nor paused with a fully
repopulated grid (every cell a digit in `[0,9]`), and stops the countdown
interval; but it does not cancel pending `setTimeout` callbacks — the
combo-decay, ⭐-expiry and settle counters are exactly as before the reset,
and such a callback can still mutate the session afterwards (`claim9_cex`). -/
theorem claim9_amended (rnd : ℕ → ℕ → Fin 10) (s : GameState) :
    (resetGame rnd s).score = 0 ∧
    (resetGame rnd s).combo = 0 ∧
    (resetGame rnd s).level = 1 ∧
    (resetGame rnd s).timeLeft = 60 ∧
    (resetGame rnd s).isPlaying = false ∧
    (resetGame rnd s).isPaused = false ∧
    (resetGame rnd s).timerOn = false ∧
    (∀ r c, ∃ d, d ≤ 9 ∧ (resetGame rnd s).grid r c = some d) ∧
    (resetGame rnd s).pendingDecays = s.pendingDecays ∧
    (resetGame rnd s).pendingBoostExpiry = s.pendingBoostExpiry ∧
    (resetGame rnd s).pendingSettles = s.pendingSettles := by
  refine ⟨rfl, rfl, rfl, rfl, rfl, rfl, rfl, ?_, rfl, rfl, rfl⟩
  intro r c
  exact ⟨(rnd r c).val, Nat.lt_succ_iff.mp (rnd r c).isLt, rfl⟩

/-! ## Claim C5: rejected matches mutate nothing -/

/-- C5: on a playing, unpaused session, a click whose connected group has
fewer than 2 cells is rejected with no mutation at all: `handleCellClick`
returns the state unchanged (grid, score, combo and level included); only
the external invalid-selection feedback happens. -/
theorem claim5_reject (s : GameState) (r c : ℕ)
    (hp : s.isPlaying = true) (hq : s.isPaused = false)
    (hlen : (findConnectedCells s.grid s.gridSize r c (s.grid r c)).length < 2) :
    handleCellClick r c s = s := by
  unfold handleCellClick
  rw [if_neg]
  · dsimp only
    rw [if_neg]
    omega
  · simp [hp, hq]

/-- C5 witness: clicking cell `(0,3)` of the paired checkerboard grid (its
group is the singleton) leaves the started session unchanged. -/
theorem claim5_witness :
    ((startGame (mkGame rndPair)).isPlaying = true ∧
     (startGame (mkGame rndPair)).isPaused = false ∧
     (findConnectedCells (startGame (mkGame rndPair)).grid
        (startGame (mkGame rndPair)).gridSize 0 3
        ((startGame (mkGame rndPair)).grid 0 3)).length < 2) ∧
    handleCellClick 0 3 (startGame (mkGame rndPair)) = startGame (mkGame rndPair) :=
  ⟨⟨by decide, by decide, by decide⟩,
   claim5_reject (startGame (mkGame rndPair)) 0 3 (by decide) (by decide) (by decide)⟩

/-! ## Claim C7: the countdown -/

/-- `tickWarn` decrements the clock and touches nothing else the countdown
claim cares about. -/
lemma tickWarn_fields (s : GameState) :
    (tickWarn s).timeLeft = s.timeLeft - 1 ∧
    (tickWarn s).score = s.score ∧
    (tickWarn s).isPlaying = s.isPlaying ∧
    (tickWarn s).timerOn = s.timerOn := by
  unfold tickWarn
  split_ifs <;> exact ⟨rfl, rfl, rfl, rfl⟩

/-- C7: while the session is playing, unpaused and the countdown interval is
live, each tick decrements `timeLeft` by exactly 1, and a tick taken at
`timeLeft = 1` (the moment the clock reaches 0) ends the game: play stops,
the interval is cleared and the final score is emitted.  Moreover in the
canonical run started from a fresh game, the session is still playing with
`timeLeft = 60 - k` after `k < 60` ticks, and exactly at the 60th tick it is
ended with `timeLeft = 0` and the final score reported. -/
theorem claim7_countdown :
    (∀ s : GameState, s.isPlaying = true → s.isPaused = false → s.timerOn = true →
      (tick s).timeLeft = s.timeLeft - 1 ∧
      (s.timeLeft = 1 →
        (tick s).isPlaying = false ∧ (tick s).timerOn = false ∧
        GEvent.gameOver s.score ∈ (tick s).events)) ∧
    (∀ k, k < 60 →
      (runGame (startGame (mkGame rndZero)) (List.replicate k GOp.tickOp)).isPlaying = true ∧
      (runGame (startGame (mkGame rndZero)) (List.replicate k GOp.tickOp)).timeLeft
        = 60 - (k : ℤ)) ∧
    (runGame (startGame (mkGame rndZero)) (List.replicate 60 GOp.tickOp)).isPlaying = false ∧
    (runGame (startGame (mkGame rndZero)) (List.replicate 60 GOp.tickOp)).timeLeft = 0 ∧
    GEvent.gameOver (runGame (startGame (mkGame rndZero)) (List.replicate 60 GOp.tickOp)).score
      ∈ (runGame (startGame (mkGame rndZero)) (List.replicate 60 GOp.tickOp)).events := by
  refine ⟨?_, by decide, by decide, by decide, by decide⟩
  intro s hp hq ht
  have hnot1 : ¬(s.timerOn = false) := by simp [ht]
  have hnot2 : ¬(s.isPaused = true) := by simp [hq]
  rw [tick, if_neg hnot1, if_neg hnot2]
  constructor
  · unfold tickRun
    split_ifs
    · show (tickWarn s).timeLeft = s.timeLeft - 1
      exact (tickWarn_fields s).1
    · exact (tickWarn_fields s).1
  · intro h1
    have hz : s.timeLeft - 1 ≤ 0 := by omega
    unfold tickRun
    rw [if_pos hz]
    refine ⟨rfl, rfl, ?_⟩
    show GEvent.gameOver s.score ∈ (tickWarn s).events ++ [GEvent.gameOver (tickWarn s).score]
    rw [(tickWarn_fields s).2.1]
    exact List.mem_append_right _ (List.mem_singleton.mpr rfl)

/-- C7 witness: the theorem's general part applied to the freshly started
session. -/
theorem claim7_witness :
    ((startGame (mkGame rndZero)).isPlaying = true ∧
     (startGame (mkGame rndZero)).isPaused = false ∧
     (startGame (mkGame rndZero)).timerOn = true) ∧
    (tick (startGame (mkGame rndZero))).timeLeft
      = (startGame (mkGame rndZero)).timeLeft - 1 :=
  ⟨⟨by decide, by decide, by decide⟩,
   (claim7_countdown.1 (startGame (mkGame rndZero)) (by decide) (by decide)
     (by decide)).1⟩

/-! ## Claim C8: low-time warnings -/

/-- C8 counterexample: the claim says that in every run the low-time warning
fires at most once per distinct `timeLeft` value, including runs where a
time bonus makes the clock re-enter `[0,10]`.  In the run that ticks from
60 down to 5, takes the ⚡ time-bonus power-up (+10 seconds) and ticks back
down, the warning for the value 10 fires twice: `_lastTickPlayed` only
remembers the most recent warned value (app.js 340-343), so re-entering the
warning window repeats values. -/
theorem claim8_cex :
    ((runGame (startGame (mkGame rndZero))
        (List.replicate 55 GOp.tickOp ++ GOp.powerUp PUType.timeBoost ::
          List.replicate 10 GOp.tickOp)).events.count (GEvent.lowTime 10)) = 2 := by
  decide

/-- C8 amended: the warning is deduplicated only against the most recently
warned value (`_lastTickPlayed`), which is enough for a monotone countdown:
in the pure 60-tick run with no time additions the warning fires exactly
once for each value 10 down to 0 (and nothing else is emitted except the
final game-over); but once a time-bonus power-up or ad reward pushes
`timeLeft` back above 10, values in `[0,10]` can be warned a second time
(`claim8_cex`). -/
theorem claim8_amended :
    (runGame (startGame (mkGame rndZero)) (List.replicate 60 GOp.tickOp)).events =
      [GEvent.lowTime 10, GEvent.lowTime 9, GEvent.lowTime 8, GEvent.lowTime 7,
       GEvent.lowTime 6, GEvent.lowTime 5, GEvent.lowTime 4, GEvent.lowTime 3,
       GEvent.lowTime 2, GEvent.lowTime 1, GEvent.lowTime 0,
       GEvent.gameOver 0] := by
  decide

/-! ## Compaction: the write-pointer loop of dropCells -/

lemma updateG_eq (g : GridF) (r c : ℕ) (v : Option ℕ) : updateG g r c v r c = v :=
  if_pos ⟨rfl, rfl⟩

lemma updateG_ne (g : GridF) (r c : ℕ) (v : Option ℕ) {r' c' : ℕ}
    (h : ¬(r' = r ∧ c' = c)) : updateG g r c v r' c' = g r' c' :=
  if_neg h

lemma nnCol_succ_some {g : GridF} {col m : ℕ} (h : (g m col).isSome = true) :
    nnCol g col (m + 1) = nnCol g col m ++ [g m col] := by
  simp [nnCol, List.range_succ, List.filter_append, h]

lemma nnCol_succ_none {g : GridF} {col m : ℕ} (h : (g m col).isSome = false) :
    nnCol g col (m + 1) = nnCol g col m := by
  simp [nnCol, List.range_succ, List.filter_append, h]

lemma nnCol_congr {g1 g2 : GridF} {col m : ℕ}
    (h : ∀ r, r < m → g1 r col = g2 r col) : nnCol g1 col m = nnCol g2 col m := by
  unfold nnCol
  congr 1
  exact List.map_congr_left (fun r hr => h r (List.mem_range.mp hr))

lemma dropColAux_cons_some_ne {g : GridF} {col row w : ℕ} {rest : List ℕ}
    (h1 : (g row col).isSome = true) (h2 : row ≠ w) :
    dropColAux col (row :: rest) w g =
      dropColAux col rest (w - 1) (updateG (updateG g w col (g row col)) row col none) := by
  simp only [dropColAux, h1, if_true, if_pos h2]

lemma dropColAux_cons_some_eq {g : GridF} {col w : ℕ} {rest : List ℕ}
    (h1 : (g w col).isSome = true) :
    dropColAux col (w :: rest) w g = dropColAux col rest (w - 1) g := by
  simp only [dropColAux, h1, if_true, ne_eq, not_true_eq_false, if_neg, ite_false]

lemma dropColAux_cons_none {g : GridF} {col row w : ℕ} {rest : List ℕ}
    (h1 : (g row col).isSome = false) :
    dropColAux col (row :: rest) w g = dropColAux col rest w g := by
  simp only [dropColAux, h1, Bool.false_eq_true, if_false]

/-- Loop invariant of the per-column write-pointer pass: running
`dropColAux` on rows `m-1 .. 0` with write pointer `w` (where `m ≤ w + 1`)
leaves other columns and rows strictly below the pointer untouched, moves
the `k` non-empty values of rows `0..m-1` in order into rows `w-k+1 .. w`,
empties the processed rows above them, and keeps unprocessed rows. -/
lemma dropColAux_spec (col n : ℕ) :
    ∀ (m w : ℕ) (g : GridF), m ≤ w + 1 → w < n →
      (∀ r c', c' ≠ col →
        dropColAux col (List.range m).reverse w g r c' = g r c') ∧
      (∀ r, w < r →
        dropColAux col (List.range m).reverse w g r col = g r col) ∧
      (nnCol g col m).length ≤ m ∧
      (nnCol g col m).length ≤ w + 1 ∧
      (∀ r, r ≤ w → w < r + (nnCol g col m).length →
        dropColAux col (List.range m).reverse w g r col =
          (nnCol g col m).getD (r + (nnCol g col m).length - 1 - w) none) ∧
      (∀ r, r ≤ w → r + (nnCol g col m).length ≤ w → r < m →
        dropColAux col (List.range m).reverse w g r col = none) ∧
      (∀ r, r ≤ w → r + (nnCol g col m).length ≤ w → m ≤ r →
        dropColAux col (List.range m).reverse w g r col = g r col) := by
  intro m
  induction m with
  | zero =>
    intro w g hmw hwn
    refine ⟨fun r c' _ => rfl, fun r _ => rfl, le_refl _, ?_, ?_, ?_, ?_⟩
    · show (nnCol g col 0).length ≤ w + 1
      simp [nnCol]
    · intro r hr1 hr2
      simp only [nnCol, List.range_zero, List.map_nil, List.filter_nil,
        List.length_nil] at hr2
      omega
    · intro r _ _ hr
      omega
    · intro r _ _ _
      rfl
  | succ m ih =>
    intro w g hmw hwn
    have hrev : (List.range (m + 1)).reverse = m :: (List.range m).reverse := by
      simp [List.range_succ]
    rw [hrev]
    by_cases h1 : (g m col).isSome
    · have hnn : nnCol g col (m + 1) = nnCol g col m ++ [g m col] :=
        nnCol_succ_some h1
      have hlen : (nnCol g col (m + 1)).length = (nnCol g col m).length + 1 := by
        rw [hnn]; simp
      by_cases h2 : m = w
      · -- the non-empty cell already sits at the write pointer: no move
        subst h2
        rw [dropColAux_cons_some_eq h1]
        obtain ⟨i1, i2, i3, i4, i5, i6, i7⟩ :=
          ih (m - 1) g (by omega) (by omega)
        refine ⟨fun r c' hc => i1 r c' hc, ?_, by omega, by omega, ?_, ?_, ?_⟩
        · intro r hr
          exact i2 r (by omega)
        · intro r hr1 hr2
          rw [hlen] at hr2
          rcases Nat.lt_or_ge r m with hlt | hge
          · have hseg := i5 r (by omega) (by omega)
            rw [hseg, hnn]
            simp only [List.length_append, List.length_singleton]
            rw [List.getD_append _ _ _ _ (by omega)]
            congr 1
            omega
          · have hrm : r = m := by omega
            have hDg : dropColAux col (List.range m).reverse (m - 1) g r col
                = g r col := by
              rcases Nat.eq_zero_or_pos m with hm0 | hmpos
              · exact i7 r (by omega) (by omega) (by omega)
              · exact i2 r (by omega)
            rw [hDg, hnn]
            simp only [List.length_append, List.length_singleton]
            rw [show r + ((nnCol g col m).length + 1) - 1 - m
                = (nnCol g col m).length from by omega]
            rw [List.getD_append_right _ _ _ _ (le_refl _)]
            simp [hrm]
        · intro r hr1 hr2 hr3
          rw [hlen] at hr2
          exact i6 r (by omega) (by omega) (by omega)
        · intro r hr1 hr2 hr3
          omega
      · -- the cell moves down to the write pointer
        have h2' : m < w := by omega
        rw [dropColAux_cons_some_ne h1 h2]
        set g1 := updateG (updateG g w col (g m col)) m col none with hg1
        have hg1at : ∀ r c', ¬(r = m ∧ c' = col) → ¬(r = w ∧ c' = col) →
            g1 r c' = g r c' := by
          intro r c' ha hb
          rw [hg1, updateG_ne _ _ _ _ ha, updateG_ne _ _ _ _ hb]
        have hg1m : g1 m col = none := updateG_eq _ _ _ _
        have hg1w : g1 w col = g m col := by
          rw [hg1, updateG_ne _ _ _ _ (fun hx => h2 hx.1.symm)]
          exact updateG_eq _ _ _ _
        have hnn1 : nnCol g1 col m = nnCol g col m :=
          nnCol_congr (fun r hr =>
            hg1at r col (fun hx => absurd hx.1 (by omega))
              (fun hx => absurd hx.1 (by omega)))
        obtain ⟨i1, i2, i3, i4, i5, i6, i7⟩ :=
          ih (w - 1) g1 (by omega) (by omega)
        rw [hnn1] at i3 i4 i5 i6 i7
        refine ⟨?_, ?_, by omega, by omega, ?_, ?_, ?_⟩
        · intro r c' hc
          rw [i1 r c' hc]
          exact hg1at r c' (fun hx => hc hx.2) (fun hx => hc hx.2)
        · intro r hr
          rw [i2 r (by omega)]
          exact hg1at r col (fun hx => absurd hx.1 (by omega))
            (fun hx => absurd hx.1 (by omega))
        · intro r hr1 hr2
          rw [hlen] at hr2
          rcases Nat.lt_or_ge r w with hlt | hge
          · have hseg := i5 r (by omega) (by omega)
            rw [hseg, hnn]
            simp only [List.length_append, List.length_singleton]
            rw [List.getD_append _ _ _ _ (by omega)]
            congr 1
            omega
          · have hrw : r = w := by omega
            have hDg : dropColAux col (List.range m).reverse (w - 1) g1 r col
                = g m col := by
              rw [i2 r (by omega)]
              rw [hrw]
              exact hg1w
            rw [hDg, hnn]
            simp only [List.length_append, List.length_singleton]
            rw [show r + ((nnCol g col m).length + 1) - 1 - w
                = (nnCol g col m).length from by omega]
            rw [List.getD_append_right _ _ _ _ (le_refl _)]
            simp
        · intro r hr1 hr2 hr3
          rw [hlen] at hr2
          rcases Nat.lt_or_ge r m with hlt | hge
          · exact i6 r (by omega) (by omega) (by omega)
          · have hrm : r = m := by omega
            rw [i7 r (by omega) (by omega) (by omega), hrm]
            exact hg1m
        · intro r hr1 hr2 hr3
          rw [hlen] at hr2
          rw [i7 r (by omega) (by omega) (by omega)]
          exact hg1at r col (fun hx => absurd hx.1 (by omega))
            (fun hx => absurd hx.1 (by omega))
    · -- empty cell: skip, write pointer unchanged
      have h1' : (g m col).isSome = false := by
        simpa using h1
      have hnn : nnCol g col (m + 1) = nnCol g col m := nnCol_succ_none h1'
      rw [dropColAux_cons_none h1']
      obtain ⟨i1, i2, i3, i4, i5, i6, i7⟩ := ih w g (by omega) hwn
      rw [hnn]
      refine ⟨i1, i2, by omega, i4, i5, ?_, ?_⟩
      · intro r hr1 hr2 hr3
        rcases Nat.lt_or_ge r m with hlt | hge
        · exact i6 r hr1 hr2 hlt
        · have hrm : r = m := by omega
          rw [i7 r hr1 hr2 (by omega), hrm]
          exact Option.not_isSome_iff_eq_none.mp (by simp [h1'])
      · intro r hr1 hr2 hr3
        exact i7 r hr1 hr2 (by omega)

/-- `dropColAux` never touches any column other than its own. -/
lemma dropColAux_other (col : ℕ) :
    ∀ (rows : List ℕ) (w : ℕ) (g : GridF) (r c' : ℕ), c' ≠ col →
      dropColAux col rows w g r c' = g r c' := by
  intro rows
  induction rows with
  | nil => intro w g r c' _; rfl
  | cons row rest ih =>
    intro w g r c' h
    by_cases h1 : (g row col).isSome
    · by_cases h2 : row = w
      · subst h2
        rw [dropColAux_cons_some_eq h1]
        exact ih _ _ _ _ h
      · rw [dropColAux_cons_some_ne h1 h2]
        rw [ih _ _ _ _ h]
        rw [updateG_ne _ _ _ _ (fun hx => h hx.2),
            updateG_ne _ _ _ _ (fun hx => h hx.2)]
    · rw [dropColAux_cons_none (by simpa using h1)]
      exact ih _ _ _ _ h

lemma colOf_congr {n : ℕ} {g1 g2 : GridF} {col : ℕ}
    (h : ∀ r, r < n → g1 r col = g2 r col) : colOf n g1 col = colOf n g2 col :=
  List.map_congr_left (fun r hr => h r (List.mem_range.mp hr))

/-- The full pass of `dropColAux` over one column (rows `n-1 .. 0`, write
pointer `n-1`) compacts exactly that column. -/
lemma dropColAux_top (col n : ℕ) (g : GridF) (hn : 0 < n) :
    colOf n (dropColAux col (List.range n).reverse (n - 1) g) col =
      compactedCol n (colOf n g col) := by
  obtain ⟨i1, i2, i3, i4, i5, i6, i7⟩ :=
    dropColAux_spec col n n (n - 1) g (by omega) (by omega)
  have hfil : List.filter (fun x => x.isSome) (colOf n g col) = nnCol g col n := rfl
  have hcc : compactedCol n (colOf n g col)
      = List.replicate (n - (nnCol g col n).length) none ++ nnCol g col n := by
    unfold compactedCol
    rw [hfil]
  rw [hcc]
  apply List.ext_getElem
  · simp only [colOf, List.length_map, List.length_range, List.length_append,
      List.length_replicate]
    omega
  · intro i h1 h2
    simp only [colOf, List.getElem_map, List.getElem_range]
    simp only [colOf, List.length_map, List.length_range] at h1
    rcases Nat.lt_or_ge i (n - (nnCol g col n).length) with hlo | hhi
    · rw [i6 i (by omega) (by omega) (by omega)]
      rw [List.getElem_append_left (by simpa using hlo)]
      simp
    · rw [i5 i (by omega) (by omega)]
      rw [List.getElem_append_right (by simpa using hhi)]
      rw [List.getD_eq_getElem _ _ (by omega)]
      congr 1
      simp only [List.length_replicate]
      omega

/-- Columns not processed by the per-column fold are untouched. -/
lemma dropFold_untouched (n : ℕ) :
    ∀ (cols : List ℕ) (g : GridF) (c' : ℕ), c' ∉ cols → ∀ r,
      (cols.foldl (fun g col => dropColAux col (List.range n).reverse (n - 1) g) g) r c'
        = g r c' := by
  intro cols
  induction cols with
  | nil => intro g c' _ r; rfl
  | cons c0 rest ih =>
    intro g c' hc r
    rw [List.foldl_cons]
    rw [ih _ _ (fun h => hc (List.mem_cons_of_mem _ h)) r]
    exact dropColAux_other c0 _ _ _ _ _
      (fun h => hc (h ▸ List.mem_cons_self _ _))

/-- Every column processed once by the fold ends up compacted. -/
lemma dropFold_col (n : ℕ) (hn : 0 < n) :
    ∀ (cols : List ℕ) (g : GridF) (col : ℕ), col ∈ cols → cols.Nodup →
      colOf n
        (cols.foldl (fun g col => dropColAux col (List.range n).reverse (n - 1) g) g)
        col = compactedCol n (colOf n g col) := by
  intro cols
  induction cols with
  | nil => intro g col hmem _; exact absurd hmem (List.not_mem_nil _)
  | cons c0 rest ih =>
    intro g col hmem hnd
    rw [List.foldl_cons]
    have hnd0 : c0 ∉ rest := (List.nodup_cons.mp hnd).1
    rcases List.mem_cons.mp hmem with hc0 | hrest
    · subst hc0
      have huntouched := dropFold_untouched n rest
        (dropColAux col (List.range n).reverse (n - 1) g) col hnd0
      have : colOf n
          (rest.foldl (fun g c => dropColAux c (List.range n).reverse (n - 1) g)
            (dropColAux col (List.range n).reverse (n - 1) g)) col
          = colOf n (dropColAux col (List.range n).reverse (n - 1) g) col :=
        colOf_congr (fun r _ => huntouched r)
      rw [this]
      exact dropColAux_top col n g hn
    · by_cases hc0 : col = c0
      · subst hc0
        exact absurd hrest hnd0
      · rw [ih _ col hrest (List.nodup_cons.mp hnd).2]
        have : colOf n (dropColAux c0 (List.range n).reverse (n - 1) g) col
            = colOf n g col :=
          colOf_congr (fun r _ => dropColAux_other c0 _ _ _ _ _ hc0)
        rw [this]

/-- `dropCells` compacts every column of the grid. -/
lemma dropCells_col (n : ℕ) (g : GridF) (col : ℕ) (hcol : col < n) :
    colOf n (dropCells n g) col = compactedCol n (colOf n g col) := by
  unfold dropCells
  exact dropFold_col n (by omega) (List.range n) g col
    (List.mem_range.mpr hcol) (List.nodup_range n)

/-! ## Claim C6: gravity and refill -/

/-- C6: `dropCells` acts on each column independently: read top to bottom,
the compacted column is the empties followed by the column's original
non-empty values in their original relative order (so the multiset of
non-empty values is unchanged); and `dropCells` followed by
`fillEmptySpaces` yields a grid with no empty in-bounds cell, every cell
that was empty receiving a freshly generated digit in `[0,9]`. -/
theorem claim6_dropFill (n : ℕ) (g : GridF) (rnd : ℕ → ℕ → Fin 10) (col : ℕ)
    (hcol : col < n) :
    colOf n (dropCells n g) col =
      List.replicate (n - ((colOf n g col).filter (fun x => x.isSome)).length) none ++
        (colOf n g col).filter (fun x => x.isSome) ∧
    (colOf n (dropCells n g) col).filter (fun x => x.isSome) =
      (colOf n g col).filter (fun x => x.isSome) ∧
    (∀ r c, r < n → c < n → fillEmptySpaces n rnd (dropCells n g) r c ≠ none) ∧
    (∀ r c, r < n → c < n → dropCells n g r c = none →
      ∃ d, d ≤ 9 ∧ fillEmptySpaces n rnd (dropCells n g) r c = some d) := by
  have hmain : colOf n (dropCells n g) col = compactedCol n (colOf n g col) :=
    dropCells_col n g col hcol
  refine ⟨hmain, ?_, ?_, ?_⟩
  · rw [hmain]
    unfold compactedCol
    rw [List.filter_append]
    have hrep : (List.replicate (n - ((colOf n g col).filter (fun x => x.isSome)).length)
        (none : Option ℕ)).filter (fun x => x.isSome) = [] := by
      rw [List.filter_replicate]
      simp
    rw [hrep, List.nil_append]
    exact List.filter_eq_self.mpr (fun a ha => (List.mem_filter.mp ha).2)
  · intro r c hr hc
    unfold fillEmptySpaces
    by_cases hnone : dropCells n g r c = none
    · rw [if_pos ⟨hr, hc, hnone⟩]
      exact Option.some_ne_none _
    · rw [if_neg (fun hx => hnone hx.2.2)]
      exact hnone
  · intro r c hr hc hnone
    refine ⟨(rnd r c).val, Nat.lt_succ_iff.mp (rnd r c).isLt, ?_⟩
    unfold fillEmptySpaces
    rw [if_pos ⟨hr, hc, hnone⟩]

/-- C6 witness: the theorem applied to a 2 × 2 grid with one hole; the first
conjunct shows the value dropping to the bottom of column 0. -/
theorem claim6_witness :
    0 < 2 ∧
    colOf 2 (dropCells 2 (fun r c => if r = 0 ∧ c = 0 then some 7 else none)) 0 =
      List.replicate
        (2 - ((colOf 2 (fun r c => if r = 0 ∧ c = 0 then some 7 else none) 0).filter
          (fun x => x.isSome)).length) none ++
        (colOf 2 (fun r c => if r = 0 ∧ c = 0 then some 7 else none) 0).filter
          (fun x => x.isSome) :=
  ⟨by decide,
   (claim6_dropFill 2 (fun r c => if r = 0 ∧ c = 0 then some 7 else none) rndZero 0
     (by decide)).1⟩

/-! ## Flood fill: visited-set accounting -/

lemma remFC_mono {n : ℕ} {v w : Finset (ℕ × ℕ)} (h : v ⊆ w) :
    remFC n w ≤ remFC n v := by
  unfold remFC
  apply Finset.card_le_card
  intro p hp
  rw [Finset.mem_filter] at hp ⊢
  exact ⟨hp.1, fun hx => hp.2 (h hx)⟩

lemma remFC_insert {n : ℕ} {v : Finset (ℕ × ℕ)} {p : ℕ × ℕ}
    (hp1 : p.1 < n) (hp2 : p.2 < n) (hpv : p ∉ v) :
    remFC n (insert p v) + 1 = remFC n v := by
  unfold remFC
  have hmem : p ∈ (inB n).filter (fun q => q ∉ v) := by
    rw [Finset.mem_filter]
    refine ⟨?_, hpv⟩
    unfold inB
    rw [Finset.mem_product]
    exact ⟨Finset.mem_range.mpr hp1, Finset.mem_range.mpr hp2⟩
  have hers : (inB n).filter (fun q => q ∉ insert p v)
      = ((inB n).filter (fun q => q ∉ v)).erase p := by
    ext q
    simp only [Finset.mem_filter, Finset.mem_erase, Finset.mem_insert, not_or]
    tauto
  rw [hers, Finset.card_erase_of_mem hmem]
  have hpos : 0 < ((inB n).filter (fun q => q ∉ v)).card :=
    Finset.card_pos.mpr ⟨p, hmem⟩
  omega

lemma remFC_empty (n : ℕ) : remFC n ∅ = n * n := by
  unfold remFC inB
  simp

/-! ## Flood fill: one direction step -/

lemma visitStep_sub {g : GridF} {n : ℕ} {digit : Option ℕ} {f}
    (hf : FSpec g n digit f) (r c : ℕ) (acc : List (ℕ × ℕ) × Finset (ℕ × ℕ))
    (d : ℤ × ℤ) : acc.2 ⊆ (visitStep g n digit f r c acc d).2 := by
  unfold visitStep
  split_ifs with hg
  · exact (hf _ _ _).1
  · exact subset_refl _

lemma visitStep_snd_pos {g : GridF} {n : ℕ} {digit : Option ℕ} {f}
    {r c : ℕ} {acc : List (ℕ × ℕ) × Finset (ℕ × ℕ)} {d : ℤ × ℤ}
    (hg : GuardP g n digit r c d) :
    (visitStep g n digit f r c acc d).2
      = (f (nbrPt r c d).1 (nbrPt r c d).2 acc.2).2 := by
  unfold visitStep
  rw [if_pos hg]

lemma visitStep_out_mem {g : GridF} {n : ℕ} {digit : Option ℕ} {f}
    {r c : ℕ} {acc : List (ℕ × ℕ) × Finset (ℕ × ℕ)} {d : ℤ × ℤ} {p : ℕ × ℕ}
    (hp : p ∈ (visitStep g n digit f r c acc d).1) :
    p ∈ acc.1 ∨ (GuardP g n digit r c d ∧
      p ∈ (f (nbrPt r c d).1 (nbrPt r c d).2 acc.2).1) := by
  unfold visitStep at hp
  split_ifs at hp with hg
  · rcases List.mem_append.mp hp with h | h
    · exact Or.inl h
    · exact Or.inr ⟨hg, h⟩
  · exact Or.inl hp

lemma GuardP_bounds {g : GridF} {n : ℕ} {digit : Option ℕ} {r c : ℕ}
    {d : ℤ × ℤ} (h : GuardP g n digit r c d) :
    (nbrPt r c d).1 < n ∧ (nbrPt r c d).2 < n ∧
      g (nbrPt r c d).1 (nbrPt r c d).2 = digit := by
  obtain ⟨h1, h2, h3, h4, h5⟩ := h
  refine ⟨?_, ?_, h5⟩ <;> unfold nbrPt <;> dsimp only <;> omega

lemma visitStep_fccOut {g : GridF} {n : ℕ} {digit : Option ℕ} {f}
    (hf : FSpec g n digit f) {r c : ℕ} {v : Finset (ℕ × ℕ)}
    (hrc : r < n) (hcc : c < n) (hdig : g r c = digit)
    (d : ℤ × ℤ)
    (hd : d = ((-1 : ℤ), (0 : ℤ)) ∨ d = (1, 0) ∨ d = (0, -1) ∨ d = (0, 1))
    {acc : List (ℕ × ℕ) × Finset (ℕ × ℕ)}
    (hacc : FccOut g n digit r c v acc) :
    FccOut g n digit r c v (visitStep g n digit f r c acc d) := by
  unfold visitStep
  split_ifs with hg
  · obtain ⟨a1, a2, a3, a4, a5, a6⟩ := hacc
    obtain ⟨m1, m2, m3, m4, m5, m6⟩ := hf (nbrPt r c d).1 (nbrPt r c d).2 acc.2
    obtain ⟨hb1, hb2, hb3⟩ := GuardP_bounds hg
    have hnb : nbr (r, c) (nbrPt r c d) := by
      obtain ⟨g1, g2, g3, g4, _⟩ := hg
      rcases hd with hde | hde | hde | hde <;>
        (subst hde; unfold nbr nbrPt; dsimp only;
         dsimp only at g1 g2 g3 g4; omega)
    have hstep : adjc g n digit (r, c) (nbrPt r c d) :=
      ⟨hrc, hcc, hb1, hb2, hdig, hb3, hnb⟩
    refine ⟨a1.trans m1, ?_, ?_, ?_, ?_, ?_⟩
    · show (f (nbrPt r c d).1 (nbrPt r c d).2 acc.2).2
        = v ∪ (acc.1 ++ (f (nbrPt r c d).1 (nbrPt r c d).2 acc.2).1).toFinset
      rw [m2, a2, List.toFinset_append, Finset.union_assoc]
    · show (acc.1 ++ (f (nbrPt r c d).1 (nbrPt r c d).2 acc.2).1).Nodup
      rw [List.nodup_append]
      refine ⟨a3, m3, ?_⟩
      intro x hx1 hx2
      exact m4 x hx2
        (by rw [a2]; exact Finset.mem_union_right _ (List.mem_toFinset.mpr hx1))
    · intro x hx
      rcases List.mem_append.mp hx with hxa | hxf
      · exact a4 x hxa
      · intro hxv
        exact m4 x hxf (by rw [a2]; exact Finset.mem_union_left _ hxv)
    · intro x hx
      rcases List.mem_append.mp hx with hxa | hxf
      · exact a5 x hxa
      · exact m5 x hxf
    · intro x hx
      rcases List.mem_append.mp hx with hxa | hxf
      · exact a6 x hxa
      · exact Relation.ReflTransGen.head hstep (m6 x hxf)
  · exact hacc

/-! ## Flood fill: unfolding equations -/

lemma fccAux_succ_visited {g : GridF} {n : ℕ} {digit : Option ℕ}
    {fuel r c : ℕ} {v : Finset (ℕ × ℕ)} (hv : (r, c) ∈ v) :
    fccAux g n digit (fuel + 1) r c v = ([], v) := by
  simp only [fccAux, if_pos hv]

lemma fccAux_succ_main {g : GridF} {n : ℕ} {digit : Option ℕ}
    {fuel r c : ℕ} {v : Finset (ℕ × ℕ)} (hv : (r, c) ∉ v)
    (hg : r < n ∧ c < n ∧ g r c = digit) :
    fccAux g n digit (fuel + 1) r c v
      = fccCore g n digit (fccAux g n digit fuel) r c v := by
  simp only [fccAux]
  rw [if_neg hv, if_pos hg]

lemma fccAux_succ_nomatch {g : GridF} {n : ℕ} {digit : Option ℕ}
    {fuel r c : ℕ} {v : Finset (ℕ × ℕ)} (hv : (r, c) ∉ v)
    (hg : ¬(r < n ∧ c < n ∧ g r c = digit)) :
    fccAux g n digit (fuel + 1) r c v = ([], v) := by
  simp only [fccAux]
  rw [if_neg hv, if_neg hg]

/-- Every level of the `findConnectedCells` recursion satisfies the
specification bundle `FSpec`. -/
lemma fcc_spec (g : GridF) (n : ℕ) (digit : Option ℕ) :
    ∀ fuel, FSpec g n digit (fccAux g n digit fuel) := by
  intro fuel
  induction fuel with
  | zero =>
    intro r c v
    refine ⟨subset_refl _, by simp [fccAux], List.nodup_nil, ?_, ?_, ?_⟩ <;>
      (intro p hp; exact absurd hp (List.not_mem_nil _))
  | succ fuel ih =>
    intro r c v
    by_cases hv : (r, c) ∈ v
    · rw [fccAux_succ_visited hv]
      refine ⟨subset_refl _, by simp, List.nodup_nil, ?_, ?_, ?_⟩ <;>
        (intro p hp; exact absurd hp (List.not_mem_nil _))
    · by_cases hg : r < n ∧ c < n ∧ g r c = digit
      · rw [fccAux_succ_main hv hg]
        have h0 : FccOut g n digit r c v ([(r, c)], insert (r, c) v) := by
          refine ⟨subset_refl _, ?_, List.nodup_singleton _, ?_, ?_, ?_⟩
          · show insert (r, c) v = v ∪ [(r, c)].toFinset
            simp [Finset.insert_eq, Finset.union_comm]
          · intro p hp
            rw [List.mem_singleton.mp hp]
            exact hv
          · intro p hp
            rw [List.mem_singleton.mp hp]
            exact ⟨hg.1, hg.2.1, hg.2.2⟩
          · intro p hp
            rw [List.mem_singleton.mp hp]
        have h4 : FccOut g n digit r c v
            (fccCore g n digit (fccAux g n digit fuel) r c v) := by
          unfold fccCore
          exact visitStep_fccOut ih hg.1 hg.2.1 hg.2.2 (0, 1) (by tauto)
            (visitStep_fccOut ih hg.1 hg.2.1 hg.2.2 (0, -1) (by tauto)
              (visitStep_fccOut ih hg.1 hg.2.1 hg.2.2 (1, 0) (by tauto)
                (visitStep_fccOut ih hg.1 hg.2.1 hg.2.2 (-1, 0) (by tauto) h0)))
        obtain ⟨b1, b2, b3, b4, b5, b6⟩ := h4
        exact ⟨(Finset.subset_insert _ _).trans b1, b2, b3, b4, b5, b6⟩
      · rw [fccAux_succ_nomatch hv hg]
        refine ⟨subset_refl _, by simp, List.nodup_nil, ?_, ?_, ?_⟩ <;>
          (intro p hp; exact absurd hp (List.not_mem_nil _))

/-- One call with positive fuel on an unvisited matching in-bounds cell puts
that cell into the returned visited set. -/
lemma fccAux_mem_self {g : GridF} {n : ℕ} {digit : Option ℕ}
    {fuel r c : ℕ} {v : Finset (ℕ × ℕ)} (hfuel : 1 ≤ fuel)
    (hrc : r < n) (hcc : c < n) (hdig : g r c = digit) :
    (r, c) ∈ (fccAux g n digit fuel r c v).2 := by
  cases fuel with
  | zero => omega
  | succ fuel =>
    by_cases hv : (r, c) ∈ v
    · rw [fccAux_succ_visited hv]
      exact hv
    · rw [fccAux_succ_main hv ⟨hrc, hcc, hdig⟩]
      unfold fccCore
      exact visitStep_sub (fcc_spec g n digit fuel) r c _ (0, 1)
        (visitStep_sub (fcc_spec g n digit fuel) r c _ (0, -1)
          (visitStep_sub (fcc_spec g n digit fuel) r c _ (1, 0)
            (visitStep_sub (fcc_spec g n digit fuel) r c _ (-1, 0)
              (Finset.mem_insert_self _ _))))

/-- A same-digit step away from `(r, c)` is exactly a direction of the loop
whose guard passes, landing on the corresponding neighbour point. -/
lemma adjc_cases {g : GridF} {n : ℕ} {digit : Option ℕ} {r c : ℕ}
    {q : ℕ × ℕ} (h : adjc g n digit (r, c) q) :
    ∃ d, (d = ((-1 : ℤ), (0 : ℤ)) ∨ d = (1, 0) ∨ d = (0, -1) ∨ d = (0, 1)) ∧
      GuardP g n digit r c d ∧ q = nbrPt r c d := by
  obtain ⟨h1, h2, h3, h4, h5, h6, h7⟩ := h
  dsimp only at h1 h2 h3 h4 h5 h6
  rcases h7 with ⟨he, hor⟩ | ⟨he, hor⟩ <;> dsimp only at he hor <;>
    rcases hor with h8 | h8
  · -- same row, q one column to the right
    have hq : q = nbrPt r c (0, 1) := by
      unfold nbrPt
      dsimp only
      rw [Prod.ext_iff]
      constructor <;> omega
    exact ⟨(0, 1), by tauto,
      ⟨by dsimp only; omega, by dsimp only; omega, by dsimp only; omega,
       by dsimp only; omega, by rw [← hq]; exact h6⟩, hq⟩
  · -- same row, q one column to the left
    have hq : q = nbrPt r c (0, -1) := by
      unfold nbrPt
      dsimp only
      rw [Prod.ext_iff]
      constructor <;> omega
    exact ⟨(0, -1), by tauto,
      ⟨by dsimp only; omega, by dsimp only; omega, by dsimp only; omega,
       by dsimp only; omega, by rw [← hq]; exact h6⟩, hq⟩
  · -- same column, q one row below
    have hq : q = nbrPt r c (1, 0) := by
      unfold nbrPt
      dsimp only
      rw [Prod.ext_iff]
      constructor <;> omega
    exact ⟨(1, 0), by tauto,
      ⟨by dsimp only; omega, by dsimp only; omega, by dsimp only; omega,
       by dsimp only; omega, by rw [← hq]; exact h6⟩, hq⟩
  · -- same column, q one row above
    have hq : q = nbrPt r c (-1, 0) := by
      unfold nbrPt
      dsimp only
      rw [Prod.ext_iff]
      constructor <;> omega
    exact ⟨(-1, 0), by tauto,
      ⟨by dsimp only; omega, by dsimp only; omega, by dsimp only; omega,
       by dsimp only; omega, by rw [← hq]; exact h6⟩, hq⟩

/-- Closure of one expanded node: assuming closure of the recursion at the
smaller fuel, every same-digit neighbour of a cell returned by the node's
four direction steps lands in the final visited set. -/
lemma fccCore_closed {g : GridF} {n : ℕ} {digit : Option ℕ}
    {fuel r c : ℕ} {v : Finset (ℕ × ℕ)}
    (hv : (r, c) ∉ v) (hg : r < n ∧ c < n ∧ g r c = digit)
    (hrem : remFC n v < fuel + 1)
    (ih : FClosedUnder g n digit (fccAux g n digit fuel) fuel) :
    ∀ p ∈ (fccCore g n digit (fccAux g n digit fuel) r c v).1, ∀ q,
      adjc g n digit p q →
        q ∈ (fccCore g n digit (fccAux g n digit fuel) r c v).2 := by
  have hFS := fcc_spec g n digit fuel
  have hrv : remFC n (insert (r, c) v) + 1 = remFC n v :=
    remFC_insert hg.1 hg.2.1 hv
  have hfuel1 : 1 ≤ fuel := by omega
  set s0 : List (ℕ × ℕ) × Finset (ℕ × ℕ) := ([(r, c)], insert (r, c) v) with hs0
  set s1 := visitStep g n digit (fccAux g n digit fuel) r c s0 (-1, 0) with hs1
  set s2 := visitStep g n digit (fccAux g n digit fuel) r c s1 (1, 0) with hs2
  set s3 := visitStep g n digit (fccAux g n digit fuel) r c s2 (0, -1) with hs3
  set s4 := visitStep g n digit (fccAux g n digit fuel) r c s3 (0, 1) with hs4
  have hcore : fccCore g n digit (fccAux g n digit fuel) r c v = s4 := by
    rw [hs4, hs3, hs2, hs1, hs0]
    rfl
  rw [hcore]
  have hi0 : insert (r, c) v ⊆ s0.2 := by
    rw [hs0]
  have hsub01 : s0.2 ⊆ s1.2 := by
    rw [hs1]; exact visitStep_sub hFS r c s0 (-1, 0)
  have hsub12 : s1.2 ⊆ s2.2 := by
    rw [hs2]; exact visitStep_sub hFS r c s1 (1, 0)
  have hsub23 : s2.2 ⊆ s3.2 := by
    rw [hs3]; exact visitStep_sub hFS r c s2 (0, -1)
  have hsub34 : s3.2 ⊆ s4.2 := by
    rw [hs4]; exact visitStep_sub hFS r c s3 (0, 1)
  have hrem0 : remFC n s0.2 ≤ remFC n (insert (r, c) v) := remFC_mono hi0
  have hrem1 : remFC n s1.2 ≤ remFC n (insert (r, c) v) :=
    remFC_mono (hi0.trans hsub01)
  have hrem2 : remFC n s2.2 ≤ remFC n (insert (r, c) v) :=
    remFC_mono ((hi0.trans hsub01).trans hsub12)
  have hrem3 : remFC n s3.2 ≤ remFC n (insert (r, c) v) :=
    remFC_mono (((hi0.trans hsub01).trans hsub12).trans hsub23)
  intro p hp q hq
  rw [hs4] at hp
  rcases visitStep_out_mem hp with hp3 | ⟨hg4, hp4⟩
  · rw [hs3] at hp3
    rcases visitStep_out_mem hp3 with hp2 | ⟨hg3, hp3'⟩
    · rw [hs2] at hp2
      rcases visitStep_out_mem hp2 with hp1 | ⟨hg2, hp2'⟩
      · rw [hs1] at hp1
        rcases visitStep_out_mem hp1 with hp0 | ⟨hg1, hp1'⟩
        · -- p is the start cell itself
          rw [hs0] at hp0
          have hpc : p = (r, c) := List.mem_singleton.mp hp0
          subst hpc
          obtain ⟨d, hd4, hguard, hqe⟩ := adjc_cases hq
          obtain ⟨hb1, hb2, hb3⟩ := GuardP_bounds hguard
          have hqmem : ∀ (acc : List (ℕ × ℕ) × Finset (ℕ × ℕ)),
              q ∈ (visitStep g n digit (fccAux g n digit fuel) r c acc d).2 := by
            intro acc
            rw [visitStep_snd_pos hguard, hqe]
            exact fccAux_mem_self hfuel1 hb1 hb2 hb3
          rcases hd4 with hde | hde | hde | hde <;> subst hde
          · exact hsub34 (hsub23 (hsub12 (by rw [hs1]; exact hqmem s0)))
          · exact hsub34 (hsub23 (by rw [hs2]; exact hqmem s1))
          · exact hsub34 (by rw [hs3]; exact hqmem s2)
          · rw [hs4]; exact hqmem s3
        · -- p came out of the first direction's recursive call
          have hq1 := ih (nbrPt r c (-1, 0)).1 (nbrPt r c (-1, 0)).2 s0.2
            (by omega) p hp1' q hq
          exact hsub34 (hsub23 (hsub12 (by rw [hs1, visitStep_snd_pos hg1]; exact hq1)))
      · have hq2 := ih (nbrPt r c (1, 0)).1 (nbrPt r c (1, 0)).2 s1.2
          (by omega) p hp2' q hq
        exact hsub34 (hsub23 (by rw [hs2, visitStep_snd_pos hg2]; exact hq2))
    · have hq3 := ih (nbrPt r c (0, -1)).1 (nbrPt r c (0, -1)).2 s2.2
        (by omega) p hp3' q hq
      exact hsub34 (by rw [hs3, visitStep_snd_pos hg3]; exact hq3)
  · have hq4 := ih (nbrPt r c (0, 1)).1 (nbrPt r c (0, 1)).2 s3.2
      (by omega) p hp4 q hq
    rw [hs4, visitStep_snd_pos hg4]
    exact hq4

/-- Closure of the whole recursion: with fuel exceeding the number of
unvisited in-bounds cells, every same-digit neighbour of a returned cell is
in the returned visited set. -/
lemma fcc_closed (g : GridF) (n : ℕ) (digit : Option ℕ) :
    ∀ fuel, FClosedUnder g n digit (fccAux g n digit fuel) fuel := by
  intro fuel
  induction fuel with
  | zero => intro r c v hrem; exact absurd hrem (Nat.not_lt_zero _)
  | succ fuel ih =>
    intro r c v hrem p hp q hq
    by_cases hv : (r, c) ∈ v
    · rw [fccAux_succ_visited hv] at hp
      exact absurd hp (List.not_mem_nil _)
    · by_cases hg : r < n ∧ c < n ∧ g r c = digit
      · rw [fccAux_succ_main hv hg] at hp ⊢
        exact fccCore_closed hv hg hrem ih p hp q hq
      · rw [fccAux_succ_nomatch hv hg] at hp
        exact absurd hp (List.not_mem_nil _)

/-- One direction step applied to two recursion functions that agree on all
visited sets containing `X` gives the same result, and keeps `X` inside the
accumulated visited set. -/
lemma visitStep_congr {g : GridF} {n : ℕ} {digit : Option ℕ} {f1 f2}
    {r c : ℕ} {X : Finset (ℕ × ℕ)} (hf1 : FSpec g n digit f1)
    (hagree : ∀ r' c' v', X ⊆ v' → f1 r' c' v' = f2 r' c' v')
    {acc : List (ℕ × ℕ) × Finset (ℕ × ℕ)} (hX : X ⊆ acc.2) (d : ℤ × ℤ) :
    visitStep g n digit f1 r c acc d = visitStep g n digit f2 r c acc d ∧
      X ⊆ (visitStep g n digit f1 r c acc d).2 := by
  unfold visitStep
  split_ifs with hg
  · constructor
    · dsimp only
      rw [hagree _ _ _ hX]
    · dsimp only
      exact fun a ha => (hf1 _ _ _).1 (hX ha)
  · exact ⟨rfl, hX⟩

/-- The result of `findConnectedCells` does not depend on the fuel once the
fuel exceeds the number of unvisited in-bounds cells: the recursion always
terminates with the same answer. -/
lemma fcc_stable (g : GridF) (n : ℕ) (digit : Option ℕ) :
    ∀ a b r c v, remFC n v < a → remFC n v < b →
      fccAux g n digit a r c v = fccAux g n digit b r c v := by
  intro a
  induction a with
  | zero => intro b r c v h1 _; exact absurd h1 (Nat.not_lt_zero _)
  | succ a ih =>
    intro b r c v h1 h2
    cases b with
    | zero => exact absurd h2 (Nat.not_lt_zero _)
    | succ b =>
      by_cases hv : (r, c) ∈ v
      · rw [fccAux_succ_visited hv, fccAux_succ_visited hv]
      · by_cases hg : r < n ∧ c < n ∧ g r c = digit
        · rw [fccAux_succ_main hv hg, fccAux_succ_main hv hg]
          have hrv : remFC n (insert (r, c) v) + 1 = remFC n v :=
            remFC_insert hg.1 hg.2.1 hv
          have hagree : ∀ r' c' v', insert (r, c) v ⊆ v' →
              fccAux g n digit a r' c' v' = fccAux g n digit b r' c' v' := by
            intro r' c' v' hXv
            have hmono : remFC n v' ≤ remFC n (insert (r, c) v) := remFC_mono hXv
            exact ih b r' c' v' (by omega) (by omega)
          unfold fccCore
          have h0 : insert (r, c) v ⊆
              (([(r, c)], insert (r, c) v) : List (ℕ × ℕ) × Finset (ℕ × ℕ)).2 :=
            subset_refl _
          obtain ⟨e1, m1⟩ := visitStep_congr (fcc_spec g n digit a) hagree h0 (-1, 0)
          rw [← e1]
          obtain ⟨e2, m2⟩ := visitStep_congr (fcc_spec g n digit a) hagree m1 (1, 0)
          rw [← e2]
          obtain ⟨e3, m3⟩ := visitStep_congr (fcc_spec g n digit a) hagree m2 (0, -1)
          rw [← e3]
          obtain ⟨e4, m4⟩ := visitStep_congr (fcc_spec g n digit a) hagree m3 (0, 1)
          exact e4
        · rw [fccAux_succ_nomatch hv hg, fccAux_succ_nomatch hv hg]

/-- Membership in the final visited set of a fresh flood fill is membership
in the returned group. -/
lemma findConnectedCells_mem_iff (g : GridF) (n : ℕ) (digit : Option ℕ)
    (r c : ℕ) (x : ℕ × ℕ) :
    x ∈ (fccAux g n digit (n * n + 1) r c ∅).2 ↔
      x ∈ findConnectedCells g n r c digit := by
  rw [(fcc_spec g n digit (n * n + 1) r c ∅).2.1]
  simp [findConnectedCells]

lemma nbr_ne {p q : ℕ × ℕ} (h : nbr p q) : p ≠ q := by
  intro heq
  subst heq
  unfold nbr at h
  rcases h with ⟨_, h | h⟩ | ⟨_, h | h⟩ <;> omega

/-! ## Claim C4: the connectivity finder -/

/-- C4: for every grid and every in-bounds start cell, `findConnectedCells`
started with `digit = grid[r][c]` returns exactly the maximal 4-directionally
connected same-digit region of the start cell: every returned cell is in
bounds, holds the digit and is reachable from the start by same-digit
orthogonal steps; no same-digit orthogonal neighbour of a returned cell is
omitted; the returned list has no duplicates; the fuelled traversal is
stable (any fuel of at least `n*n + 1` gives the same list, so the shared
visited set makes the recursion terminate even on cyclic adjacency); and
when the start cell has no same-digit neighbour the result is the singleton
start cell.  The function is pure: the grid is a read-only argument, so no
mutation is possible. -/
theorem claim4_findConnectedCells (g : GridF) (n r c : ℕ)
    (hr : r < n) (hc : c < n) :
    (∀ p ∈ findConnectedCells g n r c (g r c),
      p.1 < n ∧ p.2 < n ∧ g p.1 p.2 = g r c) ∧
    (∀ p ∈ findConnectedCells g n r c (g r c),
      Relation.ReflTransGen (adjc g n (g r c)) (r, c) p) ∧
    (∀ p ∈ findConnectedCells g n r c (g r c), ∀ q,
      adjc g n (g r c) p q → q ∈ findConnectedCells g n r c (g r c)) ∧
    (findConnectedCells g n r c (g r c)).Nodup ∧
    (∀ fuel, n * n + 1 ≤ fuel →
      (fccAux g n (g r c) fuel r c ∅).1 = findConnectedCells g n r c (g r c)) ∧
    ((∀ q, ¬ adjc g n (g r c) (r, c) q) →
      findConnectedCells g n r c (g r c) = [(r, c)]) := by
  obtain ⟨c1, c2, c3, c4, c5, c6⟩ := fcc_spec g n (g r c) (n * n + 1) r c ∅
  have hrem : remFC n ∅ < n * n + 1 := by rw [remFC_empty]; omega
  refine ⟨c5, c6, ?_, c3, ?_, ?_⟩
  · intro p hp q hq
    exact (findConnectedCells_mem_iff g n (g r c) r c q).mp
      (fcc_closed g n (g r c) (n * n + 1) r c ∅ hrem p hp q hq)
  · intro fuel hf
    exact congrArg Prod.fst
      (fcc_stable g n (g r c) fuel (n * n + 1) r c ∅ (by omega) hrem)
  · intro hno
    have hself : (r, c) ∈ findConnectedCells g n r c (g r c) :=
      (findConnectedCells_mem_iff g n (g r c) r c (r, c)).mp
        (fccAux_mem_self (by omega) hr hc rfl)
    have hall : ∀ p ∈ findConnectedCells g n r c (g r c), p = (r, c) := by
      intro p hp
      rcases (c6 p hp).cases_head with heq | ⟨x, hx1, _⟩
      · exact heq.symm
      · exact absurd hx1 (hno x)
    cases hL : findConnectedCells g n r c (g r c) with
    | nil =>
      rw [hL] at hself
      exact absurd hself (List.not_mem_nil _)
    | cons a t =>
      have c3' : (findConnectedCells g n r c (g r c)).Nodup := c3
      rw [hL] at hall c3'
      have ha : a = (r, c) := hall a (List.mem_cons_self _ _)
      have ht : t = [] := by
        rw [List.eq_nil_iff_forall_not_mem]
        intro x hx
        have hxa : x = (r, c) := hall x (List.mem_cons_of_mem _ hx)
        exact (List.nodup_cons.mp c3').1 (by rw [ha, ← hxa]; exact hx)
      rw [ha, ht]

/-- C4 witness: the theorem applied to the grid `(r + c) % 3` at start cell
`(0, 1)` of a 2 × 2 grid. -/
theorem claim4_witness :
    (0 < 2 ∧ 1 < 2) ∧
    (findConnectedCells (fun r c => some ((r + c) % 3)) 2 0 1
      ((fun r c => some ((r + c) % 3) : GridF) 0 1)).Nodup :=
  ⟨⟨by decide, by decide⟩,
   (claim4_findConnectedCells (fun r c => some ((r + c) % 3)) 2 0 1
     (by decide) (by decide)).2.2.2.1⟩

/-! ## Claim C10: empty cells are matchable -/

lemma levelCheckClick_fields (s : GameState) :
    (levelCheckClick s).score = s.score ∧ (levelCheckClick s).combo = s.combo ∧
      (levelCheckClick s).grid = s.grid := by
  unfold levelCheckClick
  split_ifs <;> exact ⟨rfl, rfl, rfl⟩

/-- C10: `findConnectedCells` compares cells with `===`, and `null === null`
holds, so the empty marker behaves as an ordinary digit value.  On a
playing, unpaused session whose grid has two 4-adjacent empty cells (as
arises between destruction and refill of a settle cycle), clicking one of
them yields a group of size at least 2, which `handleCellClick` accepts as a
valid match: `calculateScore` adds the usual points for the group and
increments the combo, and the already-empty cells are destroyed (set to
`null`) again. -/
theorem claim10_emptyMatchable (s : GameState) (r c r2 c2 : ℕ)
    (hp : s.isPlaying = true) (hq : s.isPaused = false)
    (hr : r < s.gridSize) (hc : c < s.gridSize)
    (hr2 : r2 < s.gridSize) (hc2 : c2 < s.gridSize)
    (he : s.grid r c = none) (he2 : s.grid r2 c2 = none)
    (hn : nbr (r, c) (r2, c2)) :
    2 ≤ (findConnectedCells s.grid s.gridSize r c (s.grid r c)).length ∧
    (handleCellClick r c s).score = s.score +
      scorePoints (findConnectedCells s.grid s.gridSize r c (s.grid r c)).length
        s.combo s.level ∧
    (handleCellClick r c s).combo = s.combo + 1 ∧
    (∀ p ∈ findConnectedCells s.grid s.gridSize r c (s.grid r c),
      (handleCellClick r c s).grid p.1 p.2 = none) := by
  have hrem : remFC s.gridSize ∅ < s.gridSize * s.gridSize + 1 := by
    rw [remFC_empty]; omega
  have hadj : adjc s.grid s.gridSize (s.grid r c) (r, c) (r2, c2) :=
    ⟨hr, hc, hr2, hc2, rfl, he2.trans he.symm, hn⟩
  have hmem1 : (r, c) ∈ findConnectedCells s.grid s.gridSize r c (s.grid r c) :=
    (findConnectedCells_mem_iff s.grid s.gridSize (s.grid r c) r c (r, c)).mp
      (fccAux_mem_self (by omega) hr hc rfl)
  have hmem2 : (r2, c2) ∈ findConnectedCells s.grid s.gridSize r c (s.grid r c) :=
    (findConnectedCells_mem_iff s.grid s.gridSize (s.grid r c) r c (r2, c2)).mp
      (fcc_closed s.grid s.gridSize (s.grid r c) (s.gridSize * s.gridSize + 1)
        r c ∅ hrem (r, c) hmem1 (r2, c2) hadj)
  have hlen : 2 ≤ (findConnectedCells s.grid s.gridSize r c (s.grid r c)).length := by
    have hne : ((r, c) : ℕ × ℕ) ≠ (r2, c2) := nbr_ne hn
    have hcard : ({(r, c), (r2, c2)} : Finset (ℕ × ℕ)).card = 2 :=
      Finset.card_pair hne
    have hsubset : ({(r, c), (r2, c2)} : Finset (ℕ × ℕ)) ⊆
        (findConnectedCells s.grid s.gridSize r c (s.grid r c)).toFinset := by
      intro x hx
      rcases Finset.mem_insert.mp hx with hx1 | hx1
      · subst hx1
        exact List.mem_toFinset.mpr hmem1
      · rw [Finset.mem_singleton.mp hx1]
        exact List.mem_toFinset.mpr hmem2
    have hle := Finset.card_le_card hsubset
    rw [hcard] at hle
    exact hle.trans (List.toFinset_card_le _)
  have hcond : ¬(s.isPlaying = false ∨ s.isPaused = true) := by simp [hp, hq]
  refine ⟨hlen, ?_, ?_, ?_⟩
  · unfold handleCellClick
    rw [if_neg hcond]
    dsimp only
    rw [if_pos hlen]
    rw [(levelCheckClick_fields _).1]
    rfl
  · unfold handleCellClick
    rw [if_neg hcond]
    dsimp only
    rw [if_pos hlen]
    rw [(levelCheckClick_fields _).2.1]
    rfl
  · intro p hpmem
    unfold handleCellClick
    rw [if_neg hcond]
    dsimp only
    rw [if_pos hlen]
    rw [(levelCheckClick_fields _).2.2]
    show destroyCells (findConnectedCells s.grid s.gridSize r c (s.grid r c))
      s.grid p.1 p.2 = none
    unfold destroyCells
    rw [if_pos (show ((p.1, p.2) : ℕ × ℕ) ∈
      findConnectedCells s.grid s.gridSize r c (s.grid r c) from hpmem)]

/-- C10 witness: clicking the destroyed cell `(0,0)` of `emptyPairState`
gives a group of at least two empty cells. -/
theorem claim10_witness :
    (emptyPairState.isPlaying = true ∧ emptyPairState.isPaused = false ∧
     0 < emptyPairState.gridSize ∧ 0 < emptyPairState.gridSize ∧
     0 < emptyPairState.gridSize ∧ 1 < emptyPairState.gridSize ∧
     emptyPairState.grid 0 0 = none ∧ emptyPairState.grid 0 1 = none ∧
     nbr (0, 0) (0, 1)) ∧
    2 ≤ (findConnectedCells emptyPairState.grid emptyPairState.gridSize 0 0
      (emptyPairState.grid 0 0)).length :=
  ⟨⟨by decide, by decide, by decide, by decide, by decide, by decide,
    by decide, by decide, by decide⟩,
   (claim10_emptyMatchable emptyPairState 0 0 0 1 (by decide) (by decide)
     (by decide) (by decide) (by decide) (by decide) (by decide) (by decide)
     (by decide)).1⟩
